import Mathlib

/-!
Verification of the brioche synchronization engine and VFS against its
specification. The definitions below are shallow embeddings of the Rust
source in crates/brioche/src/vfs.rs and
crates/brioche-core/src/sync/legacy_sync.rs. External collaborators
(the blake3 and ulid crates, the registry client, the reference-graph
closure) are embedded at the level of their documented interfaces: hashing
functions are taken as parameters, and the registry is a remote state whose
known-x endpoints answer with the subset of the queried values it holds.
The async control flow of the sync engine is embedded as a pure function
that records the registry calls it makes as an event trace in program
order; each bounded-concurrency fan-out runs to completion before the
engine continues, so a fan-out's events sit between the phases that
bracket them, in an order within the fan-out that nothing depends on.
-/

namespace Brioche

/-- A byte, as stored in blob and file contents. -/
abbrev Byte := Fin 256

/-- Raw file or blob contents. -/
abbrev Bytes := List Byte

/-! ### FileId string rendering and parsing (vfs.rs, Display / FromStr) -/

/-- Lowercase hex digits, as produced by blake3 to_hex. -/
def hexChar (d : Nat) : Char :=
  ("0123456789abcdef".toList).getD d '0'

/-- Decode one hex digit by code-point range; blake3 from_hex accepts both
cases. -/
def hexVal (c : Char) : Option (Fin 16) :=
  let n := c.toNat
  if h1 : 48 ≤ n ∧ n ≤ 57 then some ⟨n - 48, by omega⟩
  else if h2 : 97 ≤ n ∧ n ≤ 102 then some ⟨n - 87, by omega⟩
  else if h3 : 65 ≤ n ∧ n ≤ 70 then some ⟨n - 55, by omega⟩
  else none

/-- Render a byte string as lowercase hex, each byte as two digits with the
high nibble first (blake3 Hash to_hex, as used by Display for FileId). -/
def bytesToHex : Bytes → List Char
  | [] => []
  | b :: bs => hexChar (b.val / 16) :: hexChar (b.val % 16) :: bytesToHex bs

/-- Decode two hex chars into one byte. -/
def byteFromHex (c1 c2 : Char) : Option Byte :=
  match hexVal c1, hexVal c2 with
  | some h, some l =>
    some ⟨h.val * 16 + l.val, by have := h.isLt; have := l.isLt; omega⟩
  | _, _ => none

/-- Decode a hex string into bytes; fails on an odd length or a bad digit
(blake3 Hash from_hex, after its length check). -/
def hexToBytes : List Char → Option Bytes
  | [] => some []
  | [_] => none
  | c1 :: c2 :: rest =>
    match byteFromHex c1 c2, hexToBytes rest with
    | some b, some bs => some (b :: bs)
    | _, _ => none

/-- The Crockford base32 alphabet used by the ulid string form. -/
def crockfordAlphabet : List Char := "0123456789ABCDEFGHJKMNPQRSTVWXYZ".toList

/-- The Crockford digit for a 5-bit value. -/
def crockfordChar (d : Nat) : Char :=
  crockfordAlphabet.getD d '0'

/-- Decode one Crockford digit; the ulid crate decodes both cases. -/
def crockfordVal (c : Char) : Option Nat :=
  crockfordAlphabet.findIdx? (fun a => a = c.toUpper)

/-- Base-b digits of a number, least significant first, padded to k digits. -/
def toDigitsLE (b : Nat) : Nat → Nat → List Nat
  | 0, _ => []
  | k + 1, u => (u % b) :: toDigitsLE b k (u / b)

/-- The 26-char Crockford rendering of a 128-bit ulid (ulid Display). -/
def ulidToString (u : Nat) : List Char :=
  ((toDigitsLE 32 26 u).reverse).map crockfordChar

/-- Fold Crockford digits, most significant first, into a number. -/
def crockfordDecodeAux (acc : Nat) : List Char → Option Nat
  | [] => some acc
  | c :: cs =>
    match crockfordVal c with
    | none => none
    | some d => crockfordDecodeAux (acc * 32 + d) cs

/-- Parse a 26-char Crockford string into a ulid value (ulid FromStr, after
its length check). -/
def ulidFromChars (cs : List Char) : Option Nat :=
  crockfordDecodeAux 0 cs

/-- VFS file identity: content hash for read-only files, ulid for mutable
files (vfs.rs FileId). The Hash variant holds the 32 blake3 output bytes;
the Mutable variant holds the 128-bit ulid value. -/
inductive FileId where
  | Hash (hash : Bytes)
  | Mutable (ulid : Nat)
deriving DecidableEq, Repr

/-- Well-formedness matching the Rust types: a blake3 hash is 32 bytes and
a ulid is a u128. -/
def FileId.WF : FileId → Bool
  | .Hash h => h.length = 32
  | .Mutable u => u < 2 ^ 128

/-- String rendering of a FileId (vfs.rs Display for FileId). -/
def FileId.render : FileId → List Char
  | .Hash h => bytesToHex h
  | .Mutable u => ulidToString u

/-- Parse a FileId by length: 26 chars is a ulid, 64 chars is a blake3
hash, anything else is an error (vfs.rs FromStr for FileId). -/
def fileIdFromStr (s : List Char) : Except String FileId :=
  if s.length = 26 then
    match ulidFromChars s with
    | some u => .ok (.Mutable u)
    | none => .error "invalid ulid"
  else if s.length = 64 then
    match hexToBytes s with
    | some bs => .ok (.Hash bs)
    | none => .error "invalid hash hex"
  else .error "invalid file ID"

/-- Check that content matches a FileId: for a Hash id rehash and compare,
for a Mutable id always fail (vfs.rs FileId::validate_matches). The blake3
hash function is a parameter of the embedding. -/
def validate_matches (b3 : Bytes → Bytes) (id : FileId) (content : Bytes) :
    Except String Unit :=
  match id with
  | .Mutable _ => .error "tried to validate file ID match for mutable file"
  | .Hash expected =>
    if b3 content = expected then .ok ()
    else .error "file content does not match expected hash"

/-! ### The VFS (vfs.rs, struct Vfs)

State of the VFS behind its lock, as three maps (vfs.rs VfsInner). Rust
HashMaps are embedded as lookup functions; the logical-path
canonicalization lives in fs_utils outside the sync and VFS sources, so it
is a parameter of the embedding. Lock poisoning is not modelled: the lock
is acquired and released inside each single operation. -/

/-- A filesystem path. -/
abbrev VPath := List Char

structure VfsInner where
  contents : FileId → Option Bytes
  locations_to_ids : VPath → Option FileId
  ids_to_locations : FileId → Option (List VPath)

structure Vfs where
  mutable : Bool
  inner : VfsInner

/-- Point update of a lookup map, the embedding of HashMap insert. -/
def upd {α β : Type} [DecidableEq α] (m : α → Option β) (k : α) (v : β) :
    α → Option β :=
  fun x => if x = k then some v else m x

/-- The empty VFS state (Default for VfsInner). -/
def VfsInner.empty : VfsInner :=
  ⟨fun _ => none, fun _ => none, fun _ => none⟩

/-- Cached lookup (vfs.rs Vfs::load_cached): canonicalize, look the path
up, and read the contents for the found id. The inner Option is none when
the id is missing from contents, which in Rust is a panic of the index
operation; a well-formed VFS never hits it. -/
def load_cached (canon : VPath → VPath) (vfs : Vfs) (path : VPath) :
    Option (FileId × Option Bytes) :=
  (vfs.inner.locations_to_ids (canon path)).map
    (fun fid => (fid, vfs.inner.contents fid))

/-- Load a file (vfs.rs Vfs::load): canonicalize; on a cache hit return the
cached entry; on a miss read the bytes from disk, pick Mutable with a fresh
ulid when the VFS is mutable and Hash of the blake3 hash otherwise, and
insert into all three tables. The disk, the blake3 function and the fresh
ulid are parameters of the embedding. -/
def Vfs.load (canon : VPath → VPath) (disk : VPath → Option Bytes)
    (b3 : Bytes → Bytes) (freshUlid : Nat) (vfs : Vfs) (path : VPath) :
    Except String (FileId × Bytes × Vfs) :=
  let p := canon path
  match load_cached canon vfs p with
  | some (fid, some c) => .ok (fid, c, vfs)
  | some (_, none) => .error "panic: cached file ID missing from contents"
  | none =>
    match disk p with
    | none => .error "failed to read file"
    | some contents =>
      let fid := if vfs.mutable then FileId.Mutable freshUlid
        else FileId.Hash (b3 contents)
      .ok (fid, contents, { vfs with inner :=
        { contents := upd vfs.inner.contents fid contents
          locations_to_ids := upd vfs.inner.locations_to_ids p fid
          ids_to_locations := upd vfs.inner.ids_to_locations fid
            (((vfs.inner.ids_to_locations fid).getD []) ++ [p]) } })

/-- Outcome of Vfs::update: ok, a returned error, or a Rust panic. -/
inductive UpdateResult where
  | ok (vfs : Vfs)
  | error (msg : String)
  | panic (msg : String)

def UpdateResult.isPanic : UpdateResult → Bool
  | .panic _ => true
  | _ => false

/-- Update a file in place (vfs.rs Vfs::update): only legal for a Mutable
id; replaces the contents, then unwraps the location list of the id, which
panics when the id was never loaded. -/
def Vfs.update (vfs : Vfs) (fid : FileId) (contents : Bytes) : UpdateResult :=
  match fid with
  | .Hash _ => .error "file must be mutable"
  | .Mutable _ =>
    let inner := { vfs.inner with contents := upd vfs.inner.contents fid contents }
    match inner.ids_to_locations fid with
    | none => .panic "called Option unwrap on a None value"
    | some _ => .ok { vfs with inner := inner }

/-- The content-hash invariant of an immutable VFS: every Hash entry in the
contents table stores bytes whose blake3 hash is the id it sits under. -/
def HashInvariant (b3 : Bytes → Bytes) (vfs : Vfs) : Prop :=
  ∀ h b, vfs.inner.contents (FileId.Hash h) = some b → b3 b = h

/-- A mutable VFS with one freshly loaded file, for concrete runs. -/
def vfsW1 : Vfs :=
  ⟨true, ⟨upd VfsInner.empty.contents (FileId.Mutable 7) [0],
    upd VfsInner.empty.locations_to_ids (['p'] : VPath) (FileId.Mutable 7),
    upd VfsInner.empty.ids_to_locations (FileId.Mutable 7) [['p']]⟩⟩

/-- The state of vfsW1 after updating its one file. -/
def vfsW2 : Vfs :=
  ⟨true, ⟨upd vfsW1.inner.contents (FileId.Mutable 7) [1],
    vfsW1.inner.locations_to_ids, vfsW1.inner.ids_to_locations⟩⟩

/-- An immutable VFS with one freshly loaded file, for concrete runs. -/
def vfsW3 : Vfs :=
  ⟨false, ⟨upd VfsInner.empty.contents (FileId.Hash [5]) [5],
    upd VfsInner.empty.locations_to_ids (['p'] : VPath) (FileId.Hash [5]),
    upd VfsInner.empty.ids_to_locations (FileId.Hash [5]) [['p']]⟩⟩

/-! ### The sync engine (legacy_sync.rs)

The recipe evaluation engine is out of scope of the source files, so a
recipe is reduced to what closure and syncing read of it: its stable hash
and the hashes it embeds. Hashes are abstract numbers. -/

/-- Modelled from the spec: a recipe has a stable content hash and embeds
hashes of referenced recipes and blobs (spec data model and reference-graph
closure). The recipe type itself lives outside the source files. -/
structure Recipe where
  hash : Nat
  subRecipes : List Nat
  subBlobs : List Nat
deriving DecidableEq, Repr

/-- Modelled from the spec: an artifact is a complete value whose hash
seeds the closure like a recipe hash; syncing reads nothing else of it. -/
structure Artifact where
  hash : Nat
deriving DecidableEq, Repr

/-- RecipeReferences (references.rs): recipes keyed by hash plus the set of
referenced blob hashes. The Rust HashMap and HashSet are embedded as lists
that the operations keep duplicate-free. -/
structure RecipeReferences where
  recipes : List (Nat × Recipe)
  blobs : List Nat
deriving DecidableEq, Repr

/-- Modelled from the spec: reference-graph closure. Pop a hash; skip it
when already collected; otherwise fetch the recipe from the local store (a
missing recipe is a hard error), insert it and its referenced blobs, and
enqueue its embedded recipe hashes. Fuel bounds the walk; the closure of an
empty seed list needs none. The Rust recipe_references lives in
references.rs outside the source files. -/
def recipe_references (store : Nat → Option Recipe) :
    Nat → List Nat → RecipeReferences → Except String RecipeReferences
  | _, [], acc => .ok acc
  | 0, _ :: _, _ => .error "closure out of fuel"
  | fuel + 1, h :: queue, acc =>
    if (acc.recipes.lookup h).isSome then
      recipe_references store fuel queue acc
    else
      match store h with
      | none => .error "recipe not found"
      | some r =>
        recipe_references store fuel (r.subRecipes ++ queue)
          { recipes := (h, r) :: acc.recipes
            blobs := r.subBlobs.foldl
              (fun bs b => if bs.contains b then bs else bs ++ [b]) acc.blobs }

/-- A registry client call made by the sync engine, as recorded in its
trace. -/
inductive SyncEvent where
  | knownBlobs (hashes : List Nat)
  | sendBlob (hash : Nat)
  | knownRecipes (hashes : List Nat)
  | createRecipes (recipes : List Recipe)
  | knownBakes (pairs : List (Nat × Nat))
  | createBake (input output : Nat)
deriving DecidableEq, Repr

def SyncEvent.isCreateBake : SyncEvent → Bool
  | .createBake _ _ => true
  | _ => false

def SyncEvent.isSendBlob : SyncEvent → Bool
  | .sendBlob _ => true
  | _ => false

def SyncEvent.isCreateRecipes : SyncEvent → Bool
  | .createRecipes _ => true
  | _ => false

/-- Modelled from the spec: the remote registry state. The registry client
lives outside the source files; its known-x endpoints answer with the
subset of the queried values that the registry holds. -/
structure Registry where
  bakes : List (Nat × Nat)
  blobs : List Nat
  recipes : List Nat
deriving DecidableEq, Repr

/-- Response of a known-x endpoint: the subset of the queried values that
the remote holds. A subset holds each member once. -/
def knownResp {α : Type} [DecidableEq α] (held queried : List α) : List α :=
  (queried.filter (fun x => held.contains x)).dedup

structure SyncRecipeReferencesResult where
  num_new_blobs : Nat
  num_new_recipes : Nat
deriving DecidableEq, Repr

structure SyncBakesResults where
  num_new_bakes : Nat
  num_new_recipes : Nat
  num_new_blobs : Nat
deriving DecidableEq, Repr

/-- Sync referenced blobs and recipes (legacy_sync.rs
sync_recipe_references): known_blobs on all referenced blob hashes, then a
send_blob per novel blob (a bounded fan-out that completes before the
function continues), then known_recipes on all referenced recipe hashes,
then one batched create_recipes call with the novel recipes, made
unconditionally. Counts are list length differences, as in the source. -/
def sync_recipe_references (reg : Registry) (references : RecipeReferences) :
    List SyncEvent × SyncRecipeReferencesResult :=
  let all_blobs := references.blobs
  let known_blobs := knownResp reg.blobs all_blobs
  let num_new_blobs := all_blobs.length - known_blobs.length
  let new_blobs := all_blobs.filter (fun h => !known_blobs.contains h)
  let all_recipe_hashes := references.recipes.map (fun kv => kv.1)
  let known_recipe_hashes := knownResp reg.recipes all_recipe_hashes
  let new_recipes := references.recipes.filterMap
    (fun kv => if known_recipe_hashes.contains kv.1 then none else some kv.2)
  (SyncEvent.knownBlobs all_blobs :: new_blobs.map SyncEvent.sendBlob
      ++ [SyncEvent.knownRecipes all_recipe_hashes,
        SyncEvent.createRecipes new_recipes],
    ⟨num_new_blobs, new_recipes.length⟩)

/-- Sync baked pairs (legacy_sync.rs sync_bakes): collect the closure of
the references of every input recipe and output artifact, sync those
references, then known_bakes on all (input hash, output hash) pairs kept as
a list with multiplicity, and a create_bake per entry whose pair is not in
the response (a bounded fan-out). num_new_bakes is the length difference
between the pair list and the response, as in the source. -/
def sync_bakes (reg : Registry) (store : Nat → Option Recipe) (fuel : Nat)
    (bakes : List (Recipe × Artifact)) :
    Except String (List SyncEvent × SyncBakesResults) :=
  let recipe_hashes := (bakes.map (fun p => [p.1.hash, p.2.hash])).flatten
  match recipe_references store fuel recipe_hashes ⟨[], []⟩ with
  | .error e => .error e
  | .ok sync_references =>
    let sync_recipe_results := (sync_recipe_references reg sync_references).2
    let all_bakes := bakes.map (fun p => (p.1.hash, p.2.hash))
    let known_bakes := knownResp reg.bakes all_bakes
    let num_new_bakes := all_bakes.length - known_bakes.length
    let new_bakes := all_bakes.filter (fun p => !known_bakes.contains p)
    .ok ((sync_recipe_references reg sync_references).1
        ++ SyncEvent.knownBakes all_bakes
          :: new_bakes.map (fun p => SyncEvent.createBake p.1 p.2),
      { num_new_bakes := num_new_bakes
        num_new_recipes := sync_recipe_results.num_new_recipes
        num_new_blobs := sync_recipe_results.num_new_blobs })

/-- A local store holding the two recipes of the duplicate-pair run. -/
def storeW : Nat → Option Recipe := fun h =>
  if h = 1 then some ⟨1, [], []⟩ else if h = 2 then some ⟨2, [], []⟩ else none

/-- An input list repeating one (recipe, artifact) pair twice. -/
def dupBakes : List (Recipe × Artifact) := [(⟨1, [], []⟩, ⟨2⟩), (⟨1, [], []⟩, ⟨2⟩)]

example : fileIdFromStr (ulidToString 5) = .ok (.Mutable 5) := rfl

example : (fileIdFromStr (List.replicate 32 'a')).isOk = false := by decide

example :
    sync_bakes ⟨[], [], []⟩ storeW 4 dupBakes =
      .ok ([SyncEvent.knownBlobs [], SyncEvent.knownRecipes [2, 1],
        SyncEvent.createRecipes [⟨2, [], []⟩, ⟨1, [], []⟩],
        SyncEvent.knownBakes [(1, 2), (1, 2)],
        SyncEvent.createBake 1 2, SyncEvent.createBake 1 2], ⟨2, 2, 0⟩) := by
  rfl

/-! ### Round-trip lemmas for the FileId string forms -/

set_option maxRecDepth 4096 in
theorem byteFromHex_roundtrip :
    ∀ b : Byte, byteFromHex (hexChar (b.val / 16)) (hexChar (b.val % 16)) = some b := by
  decide

theorem hexToBytes_bytesToHex (bs : Bytes) : hexToBytes (bytesToHex bs) = some bs := by
  induction bs with
  | nil => rfl
  | cons b bs ih =>
    simp only [bytesToHex, hexToBytes, byteFromHex_roundtrip b, ih]

theorem bytesToHex_length (bs : Bytes) : (bytesToHex bs).length = 2 * bs.length := by
  induction bs with
  | nil => rfl
  | cons b bs ih =>
    simp only [bytesToHex, List.length_cons, ih]
    omega

theorem crockfordVal_crockfordChar :
    ∀ d : Fin 32, crockfordVal (crockfordChar d.val) = some d.val := by
  decide

theorem crockfordDecodeAux_append (acc : Nat) (l1 l2 : List Char) :
    crockfordDecodeAux acc (l1 ++ l2) =
      match crockfordDecodeAux acc l1 with
      | none => none
      | some a => crockfordDecodeAux a l2 := by
  induction l1 generalizing acc with
  | nil => rfl
  | cons c cs ih =>
    simp only [List.cons_append, crockfordDecodeAux]
    cases crockfordVal c with
    | none => rfl
    | some d => exact ih _

theorem toDigitsLE_length (b : Nat) : ∀ k u, (toDigitsLE b k u).length = k := by
  intro k
  induction k with
  | zero => intro u; rfl
  | succ k ih => intro u; simp only [toDigitsLE, List.length_cons, ih]

theorem crockfordDecode_digits (k : Nat) :
    ∀ acc u, u < 32 ^ k →
      crockfordDecodeAux acc (((toDigitsLE 32 k u).reverse).map crockfordChar) =
        some (acc * 32 ^ k + u) := by
  induction k with
  | zero =>
    intro acc u hu
    have hz : u = 0 := by omega
    subst hz
    simp [toDigitsLE, crockfordDecodeAux]
  | succ k ih =>
    intro acc u hu
    have hdiv : u / 32 < 32 ^ k := by
      rw [Nat.div_lt_iff_lt_mul (by norm_num : 0 < 32)]
      calc u < 32 ^ (k + 1) := hu
        _ = 32 ^ k * 32 := by rw [pow_succ]
    simp only [toDigitsLE, List.reverse_cons, List.map_append, List.map_cons, List.map_nil]
    rw [crockfordDecodeAux_append, ih acc (u / 32) hdiv]
    have hmod := crockfordVal_crockfordChar ⟨u % 32, by omega⟩
    simp only [crockfordDecodeAux, hmod]
    congr 1
    have hdm : 32 * (u / 32) + u % 32 = u := Nat.div_add_mod u 32
    calc (acc * 32 ^ k + u / 32) * 32 + u % 32
        = acc * (32 ^ k * 32) + (32 * (u / 32) + u % 32) := by ring
      _ = acc * 32 ^ (k + 1) + u := by rw [hdm, pow_succ]

theorem ulidToString_length (u : Nat) : (ulidToString u).length = 26 := by
  simp [ulidToString, toDigitsLE_length]

theorem ulidFromChars_ulidToString (u : Nat) (hu : u < 2 ^ 128) :
    ulidFromChars (ulidToString u) = some u := by
  have h26 : u < 32 ^ 26 := lt_of_lt_of_le hu (by norm_num)
  have := crockfordDecode_digits 26 0 u h26
  simpa [ulidFromChars, ulidToString] using this

/-- C5: parsing the string rendering of a well-formed FileId returns the
same FileId, for both the Hash variant (64 lowercase hex chars) and the
Mutable variant (26 Crockford base32 chars). -/
theorem fileId_roundtrip (f : FileId) (hf : f.WF = true) :
    fileIdFromStr f.render = .ok f := by
  cases f with
  | Hash h =>
    have hlen : h.length = 32 := by simpa [FileId.WF] using hf
    have h64 : (bytesToHex h).length = 64 := by rw [bytesToHex_length, hlen]
    have hne : ¬(bytesToHex h).length = 26 := by omega
    simp only [FileId.render, fileIdFromStr, if_neg hne, if_pos h64,
      hexToBytes_bytesToHex h]
  | Mutable u =>
    have hu : u < 2 ^ 128 := by simpa [FileId.WF] using hf
    have hlen := ulidToString_length u
    simp only [FileId.render, fileIdFromStr, if_pos hlen,
      ulidFromChars_ulidToString u hu]

/-- Witness for C5 at one concrete value of each variant. -/
theorem fileId_roundtrip_witness :
    (FileId.WF (.Mutable 3) = true ∧
      fileIdFromStr (FileId.render (.Mutable 3)) = .ok (.Mutable 3)) ∧
    (FileId.WF (.Hash (List.replicate 32 7)) = true ∧
      fileIdFromStr (FileId.render (.Hash (List.replicate 32 7))) =
        .ok (.Hash (List.replicate 32 7))) :=
  ⟨⟨by decide, fileId_roundtrip (.Mutable 3) (by decide)⟩,
    ⟨by decide, fileId_roundtrip (.Hash (List.replicate 32 7)) (by decide)⟩⟩

/-- C6: fileIdFromStr dispatches on input length: a 26-char string can only
parse to a Mutable id, a 64-char string can only parse to a Hash id, and
any other length is an error. -/
theorem fileIdFromStr_dispatch :
    (∀ s : List Char, s.length ≠ 26 → s.length ≠ 64 → (fileIdFromStr s).isOk = false) ∧
    (∀ s x, fileIdFromStr s = .ok x →
      (s.length = 26 → ∃ u, x = FileId.Mutable u) ∧
      (s.length = 64 → ∃ h, x = FileId.Hash h)) := by
  constructor
  · intro s h26 h64
    simp only [fileIdFromStr, if_neg h26, if_neg h64]
    rfl
  · intro s x hok
    constructor
    · intro h26
      rw [fileIdFromStr, if_pos h26] at hok
      cases hul : ulidFromChars s with
      | none => rw [hul] at hok; cases hok
      | some u =>
        rw [hul] at hok
        cases hok
        exact ⟨u, rfl⟩
    · intro h64
      have h26 : ¬s.length = 26 := by omega
      rw [fileIdFromStr, if_neg h26, if_pos h64] at hok
      cases hhx : hexToBytes s with
      | none => rw [hhx] at hok; cases hok
      | some bs =>
        rw [hhx] at hok
        cases hok
        exact ⟨bs, rfl⟩

/-- Witness for C6 at the 32-char string of scenario E5, which must fail. -/
theorem fileIdFromStr_dispatch_witness :
    (fileIdFromStr (List.replicate 32 'a')).isOk = false :=
  fileIdFromStr_dispatch.1 (List.replicate 32 'a') (by decide) (by decide)

/-- C7: validate_matches on a Hash id succeeds exactly when the blake3 hash
of the content equals the stored hash, and on a Mutable id it always
returns an error, whatever the content. -/
theorem validate_matches_spec (b3 : Bytes → Bytes) (c h : Bytes) (u : Nat) :
    (validate_matches b3 (.Hash h) c = .ok () ↔ b3 c = h) ∧
    (validate_matches b3 (.Mutable u) c).isOk = false := by
  refine ⟨⟨fun hok => ?_, fun hb => by simp [validate_matches, hb]⟩, rfl⟩
  by_cases hb : b3 c = h
  · exact hb
  · simp [validate_matches, hb] at hok

/-- Witness for C7 at a concrete stand-in hash function and content. -/
theorem validate_matches_spec_witness :
    (validate_matches (fun _ : Bytes => ([0] : Bytes)) (.Hash [0]) ([] : Bytes) = .ok () ↔
      (fun _ : Bytes => ([0] : Bytes)) ([] : Bytes) = [0]) ∧
    (validate_matches (fun _ : Bytes => ([0] : Bytes)) (.Mutable 0) ([] : Bytes)).isOk
      = false :=
  validate_matches_spec (fun _ : Bytes => ([0] : Bytes)) ([] : Bytes) [0] 0

/-! ### VFS invariants -/

/-- C8: in an immutable VFS the content-hash invariant is preserved by
every state-changing operation: load assigns Hash of the blake3 hash of
the loaded bytes on a miss, and a successful update only ever rewrites a
Mutable entry. The read-only operations load_cached and read do not change
the state. -/
theorem vfs_hash_invariant_preserved (b3 : Bytes → Bytes) (vfs : Vfs)
    (himm : vfs.mutable = false) (hinv : HashInvariant b3 vfs) :
    (∀ canon disk u path fid b vfs',
      Vfs.load canon disk b3 u vfs path = .ok (fid, b, vfs') →
        HashInvariant b3 vfs') ∧
    (∀ fid c vfs', Vfs.update vfs fid c = .ok vfs' → HashInvariant b3 vfs') := by
  constructor
  · intro canon disk u path fid b vfs' hload
    rw [Vfs.load] at hload
    cases hcache : load_cached canon vfs (canon path) with
    | some entry =>
      obtain ⟨fid0, c0⟩ := entry
      cases c0 with
      | some c =>
        rw [hcache] at hload
        cases hload
        exact hinv
      | none => rw [hcache] at hload; cases hload
    | none =>
      rw [hcache] at hload
      cases hdisk : disk (canon path) with
      | none => rw [hdisk] at hload; cases hload
      | some ct =>
        rw [hdisk] at hload
        simp only [himm, if_neg Bool.false_ne_true] at hload
        cases hload
        intro h bv hlook
        simp only [upd] at hlook
        by_cases heq : FileId.Hash h = FileId.Hash (b3 b)
        · rw [if_pos heq] at hlook
          injection heq with h2
          subst h2
          injection hlook with h3
          subst h3
          rfl
        · rw [if_neg heq] at hlook
          exact hinv h bv hlook
  · intro fid c vfs' hupd
    cases fid with
    | Hash h => rw [Vfs.update] at hupd; cases hupd
    | Mutable u =>
      rw [Vfs.update] at hupd
      cases hloc : vfs.inner.ids_to_locations (.Mutable u) with
      | none => rw [hloc] at hupd; cases hupd
      | some ls =>
        rw [hloc] at hupd
        cases hupd
        intro h bv hlook
        simp only [upd] at hlook
        rw [if_neg (by simp)] at hlook
        exact hinv h bv hlook

/-- Witness for C8: loading one file into the empty immutable VFS yields a
state satisfying the content-hash invariant. -/
theorem vfs_hash_invariant_preserved_witness :
    HashInvariant (fun b => b) vfsW3 :=
  (vfs_hash_invariant_preserved (fun b => b) ⟨false, VfsInner.empty⟩ rfl
      (fun _ _ hb => Option.noConfusion hb)).1
    (fun p => p) (fun _ => some [5]) 0 ['p'] (FileId.Hash [5]) [5] vfsW3 rfl

/-- C9: in a mutable VFS, after load returns a Mutable id and a later
update of that id succeeds, load_cached on the same path returns the same
id with the new contents. The canonicalization function is a normalization
and hence idempotent, which the theorem takes as a hypothesis. -/
theorem mutable_update_visibility (canon : VPath → VPath)
    (hc : ∀ q, canon (canon q) = canon q)
    (disk : VPath → Option Bytes) (b3 : Bytes → Bytes) (u w : Nat)
    (vfs s1 s2 : Vfs) (path : VPath) (fid : FileId) (b0 b1 : Bytes)
    (hload : Vfs.load canon disk b3 u vfs path = .ok (fid, b0, s1))
    (hfid : fid = FileId.Mutable w)
    (hupd : Vfs.update s1 fid b1 = .ok s2) :
    load_cached canon s2 path = some (fid, some b1) := by
  subst hfid
  have hkey : s1.inner.locations_to_ids (canon path) = some (FileId.Mutable w) := by
    rw [Vfs.load] at hload
    cases hcache : load_cached canon vfs (canon path) with
    | some entry =>
      obtain ⟨fid0, c0⟩ := entry
      cases c0 with
      | some c =>
        rw [hcache] at hload
        cases hload
        unfold load_cached at hcache
        cases hl : vfs.inner.locations_to_ids (canon (canon path)) with
        | none => rw [hl] at hcache; cases hcache
        | some f =>
          rw [hl] at hcache
          simp only [Option.map_some'] at hcache
          injection hcache with h1
          have hf : f = FileId.Mutable w := congrArg Prod.fst h1
          rw [hc path] at hl
          rw [hl, hf]
      | none => rw [hcache] at hload; cases hload
    | none =>
      rw [hcache] at hload
      cases hdisk : disk (canon path) with
      | none => rw [hdisk] at hload; cases hload
      | some ct =>
        rw [hdisk] at hload
        cases hmut : vfs.mutable with
        | false =>
          simp only [hmut, if_neg Bool.false_ne_true] at hload
          cases hload
        | true =>
          simp only [hmut, if_pos rfl] at hload
          cases hload
          simp [upd]
  rw [Vfs.update] at hupd
  cases hloc : ({ s1.inner with
      contents := upd s1.inner.contents (FileId.Mutable w) b1 } :
        VfsInner).ids_to_locations (FileId.Mutable w) with
  | none => rw [hloc] at hupd; cases hupd
  | some ls =>
    rw [hloc] at hupd
    cases hupd
    simp only [load_cached]
    rw [show ({ s1 with inner := { s1.inner with
        contents := upd s1.inner.contents (FileId.Mutable w) b1 } } :
          Vfs).inner.locations_to_ids = s1.inner.locations_to_ids from rfl]
    rw [hkey]
    simp [upd]

/-- Witness for C9 at a concrete mutable VFS run. -/
theorem mutable_update_visibility_witness :
    load_cached (fun p => p) vfsW2 ['p'] = some (FileId.Mutable 7, some [1]) :=
  mutable_update_visibility (fun p => p) (fun _ => rfl) (fun _ => some [0])
    (fun b => b) 7 7 ⟨true, VfsInner.empty⟩ vfsW1 vfsW2 ['p'] (FileId.Mutable 7)
    [0] [1] rfl rfl rfl

/-- C10: updating a Mutable id that was never loaded, so that it has no
entry in ids_to_locations, panics instead of returning an error. -/
theorem update_unregistered_panics (vfs : Vfs) (u : Nat) (c : Bytes)
    (hloc : vfs.inner.ids_to_locations (FileId.Mutable u) = none) :
    (Vfs.update vfs (FileId.Mutable u) c).isPanic = true := by
  simp only [Vfs.update]
  simp [hloc, UpdateResult.isPanic]

/-- Witness for C10 at the empty mutable VFS. -/
theorem update_unregistered_panics_witness :
    (Vfs.update ⟨true, VfsInner.empty⟩ (FileId.Mutable 0) []).isPanic = true :=
  update_unregistered_panics ⟨true, VfsInner.empty⟩ 0 [] rfl

/-! ### Sync engine ordering and counting -/

theorem sync_recipe_references_no_createBake (reg : Registry)
    (references : RecipeReferences) :
    ∀ e ∈ (sync_recipe_references reg references).1, e.isCreateBake = false := by
  intro e he
  simp only [sync_recipe_references] at he
  rcases List.mem_cons.mp he with rfl | he1
  · rfl
  rcases List.mem_append.mp he1 with he2 | he3
  · obtain ⟨a, _, rfl⟩ := List.mem_map.mp he2
    rfl
  rcases List.mem_cons.mp he3 with rfl | he4
  · rfl
  rcases List.mem_singleton.mp he4 with rfl
  rfl

/-- C2: in every run of sync_recipe_references the trace splits into a
prefix holding no create_recipes call and a suffix holding no send_blob
call: every send_blob for a novel blob completes before the create_recipes
call begins. -/
theorem sendBlob_before_createRecipes (reg : Registry)
    (references : RecipeReferences) :
    ∃ pre post,
      (sync_recipe_references reg references).1 = pre ++ post ∧
      (∀ e ∈ pre, e.isCreateRecipes = false) ∧
      (∀ e ∈ post, e.isSendBlob = false) := by
  refine ⟨SyncEvent.knownBlobs references.blobs ::
      (references.blobs.filter
        (fun h => !(knownResp reg.blobs references.blobs).contains h)).map
        SyncEvent.sendBlob,
    [SyncEvent.knownRecipes (references.recipes.map (fun kv => kv.1)),
      SyncEvent.createRecipes (references.recipes.filterMap
        (fun kv => if (knownResp reg.recipes
            (references.recipes.map (fun kv => kv.1))).contains kv.1
          then none else some kv.2))],
    ?_, ?_, ?_⟩
  · rfl
  · intro e he
    rcases List.mem_cons.mp he with rfl | hm
    · rfl
    · obtain ⟨h, _, rfl⟩ := List.mem_map.mp hm
      rfl
  · intro e he
    rcases List.mem_cons.mp he with rfl | hm
    · rfl
    · rcases List.mem_singleton.mp hm with rfl
      rfl

/-- C1: in every successful run of sync_bakes the trace of the
recipe-reference sync is a prefix of the whole trace and holds no
create_bake event: all referenced blobs and recipes are reconciled, and
sync_recipe_references has returned, before any bake edge is posted. -/
theorem recipeRefs_before_createBake (reg : Registry)
    (store : Nat → Option Recipe) (fuel : Nat)
    (bakes : List (Recipe × Artifact)) (tr : List SyncEvent)
    (res : SyncBakesResults)
    (hok : sync_bakes reg store fuel bakes = .ok (tr, res)) :
    ∃ references rest,
      recipe_references store fuel
          ((bakes.map (fun p => [p.1.hash, p.2.hash])).flatten) ⟨[], []⟩ =
        .ok references ∧
      tr = (sync_recipe_references reg references).1 ++ rest ∧
      ∀ e ∈ (sync_recipe_references reg references).1, e.isCreateBake = false := by
  simp only [sync_bakes] at hok
  cases hrefs : recipe_references store fuel
      ((bakes.map (fun p => [p.1.hash, p.2.hash])).flatten) ⟨[], []⟩ with
  | error e => simp only [hrefs] at hok; cases hok
  | ok references =>
    simp only [hrefs] at hok
    cases hok
    exact ⟨references, _, rfl, rfl,
      sync_recipe_references_no_createBake reg references⟩

/-- Witness for C1 at the empty input. -/
theorem recipeRefs_before_createBake_witness :
    ∃ references rest,
      recipe_references (fun _ => none) 0
          ((([] : List (Recipe × Artifact)).map
            (fun p => [p.1.hash, p.2.hash])).flatten) ⟨[], []⟩ =
        .ok references ∧
      ([SyncEvent.knownBlobs [], SyncEvent.knownRecipes [],
        SyncEvent.createRecipes [], SyncEvent.knownBakes []] : List SyncEvent) =
        (sync_recipe_references ⟨[], [], []⟩ references).1 ++ rest ∧
      ∀ e ∈ (sync_recipe_references ⟨[], [], []⟩ references).1,
        e.isCreateBake = false :=
  recipeRefs_before_createBake ⟨[], [], []⟩ (fun _ => none) 0 [] _ _ rfl

/-- Counterexample to C3: with an empty registry, syncing the same (recipe,
artifact) pair twice reports num_new_bakes = 2 and posts create_bake twice,
while the set of distinct unknown pairs has one element: duplicate pairs do
not collapse. -/
theorem sync_bakes_duplicates_not_collapsed :
    ((sync_bakes ⟨[], [], []⟩ storeW 4 dupBakes).toOption.map
      (fun x => (x.2.num_new_bakes, x.1.count (SyncEvent.createBake 1 2)))) =
        some (2, 2) ∧
    ((dupBakes.map (fun p => (p.1.hash, p.2.hash))).dedup.filter
      (fun p => !(([] : List (Nat × Nat)).contains p))).length = 1 := by
  constructor <;> rfl

/-- C3 amended: num_new_bakes is the length of the input pair list, kept
with multiplicity, minus the number of distinct known pairs among it, and
create_bake is posted once per unknown entry, so duplicate pairs are
counted and posted once per occurrence rather than collapsing. -/
theorem sync_bakes_new_count (reg : Registry) (store : Nat → Option Recipe)
    (fuel : Nat) (bakes : List (Recipe × Artifact)) (tr : List SyncEvent)
    (res : SyncBakesResults)
    (hok : sync_bakes reg store fuel bakes = .ok (tr, res)) :
    res.num_new_bakes = (bakes.map (fun p => (p.1.hash, p.2.hash))).length -
      (knownResp reg.bakes (bakes.map (fun p => (p.1.hash, p.2.hash)))).length ∧
    tr.filter (fun e => e.isCreateBake) =
      ((bakes.map (fun p => (p.1.hash, p.2.hash))).filter
        (fun p => !(knownResp reg.bakes
          (bakes.map (fun p => (p.1.hash, p.2.hash)))).contains p)).map
        (fun p => SyncEvent.createBake p.1 p.2) := by
  simp only [sync_bakes] at hok
  cases hrefs : recipe_references store fuel
      ((bakes.map (fun p => [p.1.hash, p.2.hash])).flatten) ⟨[], []⟩ with
  | error e => simp only [hrefs] at hok; cases hok
  | ok references =>
    simp only [hrefs] at hok
    cases hok
    refine ⟨rfl, ?_⟩
    have h1 : (sync_recipe_references reg references).1.filter
        (fun e => e.isCreateBake) = [] := by
      rw [List.filter_eq_nil_iff]
      intro a ha
      simp [sync_recipe_references_no_createBake reg references a ha]
    rw [List.filter_append, h1, List.nil_append,
      List.filter_cons_of_neg (by simp [SyncEvent.isCreateBake]),
      List.filter_map]
    have h2 : List.filter ((fun e => SyncEvent.isCreateBake e) ∘
        (fun p => SyncEvent.createBake p.1 p.2))
        ((bakes.map (fun p => (p.1.hash, p.2.hash))).filter
          (fun p => !(knownResp reg.bakes
            (bakes.map (fun p => (p.1.hash, p.2.hash)))).contains p)) =
        (bakes.map (fun p => (p.1.hash, p.2.hash))).filter
          (fun p => !(knownResp reg.bakes
            (bakes.map (fun p => (p.1.hash, p.2.hash)))).contains p) := by
      rw [List.filter_eq_self]
      intro a ha
      rfl
    rw [h2]

/-- Witness for C3 amended at the duplicate-pair run. -/
theorem sync_bakes_new_count_witness :
    ((⟨2, 2, 0⟩ : SyncBakesResults).num_new_bakes =
      (dupBakes.map (fun p => (p.1.hash, p.2.hash))).length -
        (knownResp (⟨[], [], []⟩ : Registry).bakes
          (dupBakes.map (fun p => (p.1.hash, p.2.hash)))).length) ∧
    (([SyncEvent.knownBlobs [], SyncEvent.knownRecipes [2, 1],
        SyncEvent.createRecipes [⟨2, [], []⟩, ⟨1, [], []⟩],
        SyncEvent.knownBakes [(1, 2), (1, 2)],
        SyncEvent.createBake 1 2, SyncEvent.createBake 1 2] :
          List SyncEvent).filter (fun e => e.isCreateBake) =
      ((dupBakes.map (fun p => (p.1.hash, p.2.hash))).filter
        (fun p => !(knownResp (⟨[], [], []⟩ : Registry).bakes
          (dupBakes.map (fun p => (p.1.hash, p.2.hash)))).contains p)).map
        (fun p => SyncEvent.createBake p.1 p.2)) :=
  sync_bakes_new_count ⟨[], [], []⟩ storeW 4 dupBakes _ _ rfl

/-- Counterexample to C4: an empty sync still makes exactly one
create_recipes call, with an empty batch, because sync_recipe_references
posts its batch unconditionally. -/
theorem empty_sync_calls_create_recipes :
    ((sync_bakes ⟨[], [], []⟩ (fun _ => none) 0 []).toOption.map
      (fun x => x.1.count (SyncEvent.createRecipes []))) = some 1 := rfl

/-- C4 amended: an empty sync returns all-zero counts and performs no
send_blob and no create_bake call; its trace is exactly the known-x checks
plus one create_recipes call with an empty batch. -/
theorem sync_bakes_empty (reg : Registry) (store : Nat → Option Recipe)
    (fuel : Nat) :
    sync_bakes reg store fuel [] =
      .ok ([SyncEvent.knownBlobs [], SyncEvent.knownRecipes [],
        SyncEvent.createRecipes [], SyncEvent.knownBakes []], ⟨0, 0, 0⟩) := by
  have h : recipe_references store fuel
      ((([] : List (Recipe × Artifact)).map
        (fun p => [p.1.hash, p.2.hash])).flatten) ⟨[], []⟩ = .ok ⟨[], []⟩ := by
    cases fuel <;> rfl
  simp only [sync_bakes, h]
  rfl

end Brioche
